import Mathlib

/-!
Shallow embedding of the Splider cubic-spline library (kabasset/Splider)
over exact rational arithmetic, together with theorems settling the
frozen claims about its specification.

Source files embedded:
* `Splider/Partition.h` (also `SplineIntervals` in `Splider/Spline.h`):
  domain construction and interval lookup.
* `Splider/Spline.h`: `SplineArg`, `Spline<T, Cache>` with `Early`/`Lazy`
  caching, `SplineResampler`.
* `Splider/Natural.h`: `Natural::update`, the Thomas tridiagonal solve.
* `Splider/C2.h` and `Splider/mixins/C2.h`: `C2Bounds`, `C2Spline::update`,
  `C2Arg`, `C2SplineMixin` evaluation and assignment.
* `Splider/Co.h`: `Co` cospline.
* `Splider/Linspace.h`: uniform domain.
* `Splider/BiSpline.h`: `BiCospline` occupancy mask and evaluation.

Machine `double`s are modelled by `ℚ` (the code only adds, subtracts,
multiplies, divides and compares); `std::vector` by `List ℚ` with `getD`
reads; exceptions by `Option`.
-/

namespace Splider

/-- Successive differences `u[i+1] - u[i]`, the `m_h` vector of
`Partition` / `SplineIntervals`. -/
def diffs : List ℚ → List ℚ
  | x :: y :: t => (y - x) :: diffs (y :: t)
  | _ => []

/-- The knots domain: abscissae `m_u` and precomputed spacings `m_h`
(`Partition` in `Partition.h`, `SplineIntervals` in `Spline.h`). -/
structure Domain where
  u : List ℚ
  h : List ℚ
  deriving DecidableEq

/-- Embeds `Partition::Partition` (Partition.h:38-53): throws when there are fewer
than 3 knots (`m_h.size() < 2`) or when some spacing `h = u[i+1] - u[i]`
is nonpositive; otherwise stores `m_u` and `m_h`.  (With 0 input points
the `m_h(m_u.size() - 1)` allocation itself fails in C++; that is also a
construction failure, covered by the `length < 3` branch here.) -/
def mkDomain (u : List ℚ) : Option Domain :=
  if u.length < 3 then none
  else if (diffs u).all (fun h => decide (0 < h)) then some ⟨u, diffs u⟩
  else none

/-- The reverse linear scan of `Partition::index` (Partition.h:110-114):
start at `i = n - 2` and decrement while `x < u[i]`.  `scanDown u x i`
is the value of `i` when the loop exits, assuming the loop entered with
that `i`; when `i = 0` the loop must exit since the caller guaranteed
`u[0] <= x`. -/
def scanDown (u : List ℚ) (x : ℚ) : ℕ → ℕ
  | 0 => 0
  | i + 1 => if x < u.getD (i + 1) 0 then scanDown u x i else i + 1

/-- Embeds `Partition::index` (Partition.h:102-115): throws (`none`) when
`x < u[0]` or `x > u[n-1]`, otherwise runs the reverse scan from
`n - 2`. -/
def partIndex (d : Domain) (x : ℚ) : Option ℕ :=
  if x < d.u.getD 0 0 then none
  else if d.u.getD (d.u.length - 1) 0 < x then none
  else some (scanDown d.u x (d.u.length - 2))

/-! ### Embedding of `Spline.h`: `SplineArg` and the `Spline<T, Cache>` state machines -/

/-- The data of a `SplineArg` (Spline.h:111-145): interval index and the
four blend coefficients. -/
structure SplineArgData where
  i : ℕ
  cv0 : ℚ
  cv1 : ℚ
  cs0 : ℚ
  cs1 : ℚ
  deriving DecidableEq

/-- Embeds `SplineArg::SplineArg` (Spline.h:128-137). -/
def splineArgOf (d : Domain) (x : ℚ) : Option SplineArgData :=
  (partIndex d x).map (fun i =>
    let h := d.h.getD i 0
    let left := x - d.u.getD i 0
    let right := h - left
    ⟨i, right / h, left / h,
      right * right * right / (6 * h) - h * right / 6,
      left * left * left / (6 * h) - h * left / 6⟩)

/-- The evaluation formula of `Spline::operator()(const SplineArg&)`
(Spline.h:312-315), reading knot values `v` and coefficients `s`. -/
def splineCombine (v s : List ℚ) (a : SplineArgData) : ℚ :=
  v.getD a.i 0 * a.cv0 + v.getD (a.i + 1) 0 * a.cv1 +
    s.getD a.i 0 * a.cs0 + s.getD (a.i + 1) 0 * a.cs1

/-- The interior coefficient formula shared by `Spline::update()`
(Spline.h:276-282) and `Spline::update(i)` (Spline.h:295-300):
`s[i] = (v[i+1]-v[i])/h[i] - (v[i]-v[i-1])/h[i-1]`. -/
def updateRow (d : Domain) (v : List ℚ) (i : ℕ) : ℚ :=
  (v.getD (i + 1) 0 - v.getD i 0) / d.h.getD i 0 -
    (v.getD i 0 - v.getD (i - 1) 0) / d.h.getD (i - 1) 0

/-- The coefficient recomputation of `Spline::update()` (Spline.h:269-290):
rewrite `s[1..n-2]` (`n = m_v.size()`), leaving `s[0]` and `s[n-1]`
untouched. -/
def fullRows (d : Domain) (v s : List ℚ) : List ℚ :=
  (List.range s.length).map (fun i =>
    if 1 ≤ i ∧ i + 1 < v.length then updateRow d v i else s.getD i 0)

/-- State of `Spline<T, SplineCache::Early>` (Spline.h:353-357): knot
values `m_v` and coefficients `m_s`; the cache set is unused because
`valid` is constantly true under the early policy. -/
structure EarlySpline where
  v : List ℚ
  s : List ℚ
  deriving DecidableEq

/-- Early `Spline` value constructor (Spline.h:170-177): zero-initialized
coefficients, then `update()`. -/
def earlyInit (d : Domain) (v : List ℚ) : EarlySpline :=
  ⟨v, fullRows d v (List.replicate v.length 0)⟩

/-- Embeds `Spline::v(i, value)` under the early policy (Spline.h:230-241):
assign the value, then full `update()`. -/
def earlySetV (d : Domain) (st : EarlySpline) (i : ℕ) (x : ℚ) : EarlySpline :=
  ⟨st.v.set i x, fullRows d (st.v.set i x) st.s⟩

/-- Early evaluation `Spline::operator()` (Spline.h:312-315): `dv2` reads
are plain coefficient reads. -/
def earlyEvalArg (st : EarlySpline) (a : SplineArgData) : ℚ :=
  splineCombine st.v st.s a

/-- State of `Spline<T, SplineCache::Lazy>` (Spline.h:353-357): knot
values `m_v`, coefficients `m_s` and the set `m_cache` of cached (valid)
coefficient indices. -/
structure LazySpline where
  v : List ℚ
  s : List ℚ
  cache : Finset ℕ
  deriving DecidableEq

/-- Lazy `Spline` value constructor (Spline.h:170-177): coefficients
zero-initialized, `{0, n-1}` cached (natural boundary coefficients). -/
def lazyInit (v : List ℚ) : LazySpline :=
  ⟨v, List.replicate v.length 0, {0, v.length - 1}⟩

/-- Embeds `Spline::valid(i)` under the lazy policy (Spline.h:258-264). -/
def lazyValid (st : LazySpline) (i : ℕ) : Bool :=
  decide (i ∈ st.cache)

/-- Embeds `Spline::update()` under the lazy policy (Spline.h:269-290): recompute
the interior rows and insert `1..n-2` (`n = m_s.size()`) into the cache. -/
def lazyUpdate (d : Domain) (st : LazySpline) : LazySpline :=
  ⟨st.v, fullRows d st.v st.s, st.cache ∪ Finset.Icc 1 (st.s.length - 2)⟩

/-- Embeds `Spline::v(i, value)` under the lazy policy (Spline.h:230-241).  The
loop is `for (j = min; j <= max; ++j) m_cache.erase(i);` with
`min = i > 1 ? i - 1 : 1` and `max = std::min(i + 1, n - 2)`: its body
erases index `i` (not `j`), so whenever it runs at all it removes exactly
`i` from the cache. -/
def lazySetV (st : LazySpline) (i : ℕ) (x : ℚ) : LazySpline :=
  if (if 1 < i then i - 1 else 1) ≤ min (i + 1) (st.v.length - 2) then
    ⟨st.v.set i x, st.s, st.cache.erase i⟩
  else
    ⟨st.v.set i x, st.s, st.cache⟩

/-- Embeds `Spline::dv2(i)` under the lazy policy (Spline.h:246-253): a read
that, when `i` is not cached, first recomputes `s[i]` via `update(i)`
(Spline.h:295-300) and caches it. -/
def lazyDv2 (d : Domain) (st : LazySpline) (i : ℕ) : ℚ × LazySpline :=
  if i ∈ st.cache then (st.s.getD i 0, st)
  else (updateRow d st.v i,
    ⟨st.v, st.s.set i (updateRow d st.v i), insert i st.cache⟩)

/-- Lazy evaluation `Spline::operator()` (Spline.h:312-315): reads
`dv2(i)` and `dv2(i+1)` (whose side effects touch distinct coefficients)
and combines them with the argument weights. -/
def lazyEvalArg (d : Domain) (st : LazySpline) (a : SplineArgData) :
    ℚ × LazySpline :=
  let r0 := lazyDv2 d st a.i
  let r1 := lazyDv2 d r0.2 (a.i + 1)
  (st.v.getD a.i 0 * a.cv0 + st.v.getD (a.i + 1) 0 * a.cv1 +
    r0.1 * a.cs0 + r1.1 * a.cs1, r1.2)

/-! ### Embedding of `Natural.h`: the Thomas tridiagonal solve -/

/-- Forward-pass diagonal `b[i]` of `Natural::update` (Natural.h:37-54):
`b[1] = 2(h[0]+h[1])`; for `i >= 2` the code computes
`w = h[i]/b[i-1]` and `b[i] = 2(h[i-1]+h[i]) - w*h[i]`. -/
def thomasDiag (h : ℕ → ℚ) : ℕ → ℚ
  | 0 => 0
  | 1 => 2 * (h 0 + h 1)
  | i + 2 =>
    2 * (h (i + 1) + h (i + 2)) - h (i + 2) / thomasDiag h (i + 1) * h (i + 2)

/-- Forward-pass right-hand side `d[i]` of `Natural::update`
(Natural.h:37-54): `d[1] = 6(dv[1]-dv[0])`; for `i >= 2`,
`d[i] = 6(dv[i]-dv[i-1]) - w*d[i-1]` with `w = h[i]/b[i-1]`. -/
def thomasRhs (h dv : ℕ → ℚ) : ℕ → ℚ
  | 0 => 0
  | 1 => 6 * (dv 1 - dv 0)
  | i + 2 =>
    6 * (dv (i + 2) - dv (i + 1)) -
      h (i + 2) / thomasDiag h (i + 1) * thomasRhs h dv (i + 1)

/-- Backward pass of `Natural::update` (Natural.h:56-60): `thomasBack 0`
is `s[n-2] = d[n-2]/b[n-2]` and `thomasBack (j+1)` is `s[n-2-(j+1)] =
(d[i] - h[i]*s[i+1])/b[i]` at `i = n-2-(j+1)`. -/
def thomasBack (h b dd : ℕ → ℚ) (n : ℕ) : ℕ → ℚ
  | 0 => dd (n - 2) / b (n - 2)
  | j + 1 =>
    (dd (n - 2 - (j + 1)) - h (n - 2 - (j + 1)) * thomasBack h b dd n j) /
      b (n - 2 - (j + 1))

/-- Embeds `Natural::update` (Natural.h:22-67) as a function from the domain and
knot values to the coefficient list `s`: forward elimination, back
substitution, and the natural boundary `s[0] = s[n-1] = 0`. -/
def naturalUpdate (d : Domain) (v : List ℚ) : List ℚ :=
  let n := v.length
  let h := fun i => d.h.getD i 0
  let dv := fun i => (v.getD (i + 1) 0 - v.getD i 0) / h i
  (List.range n).map (fun i =>
    if i = 0 ∨ i = n - 1 then 0
    else thomasBack h (thomasDiag h) (thomasRhs h dv) n (n - 2 - i))

/-- Row `i` of the natural-spline tridiagonal system that `Natural::update`
is specified to solve (for interior `i`, given `s[0] = s[n-1] = 0`):
`h[i-1]*s[i-1] + 2*(h[i-1]+h[i])*s[i] + h[i]*s[i+1]
  = 6*((v[i+1]-v[i])/h[i] - (v[i]-v[i-1])/h[i-1])`. -/
def tridiagRow (d : Domain) (v s : List ℚ) (i : ℕ) : Prop :=
  d.h.getD (i - 1) 0 * s.getD (i - 1) 0 +
      2 * (d.h.getD (i - 1) 0 + d.h.getD i 0) * s.getD i 0 +
      d.h.getD i 0 * s.getD (i + 1) 0 =
    6 * ((v.getD (i + 1) 0 - v.getD i 0) / d.h.getD i 0 -
        (v.getD i 0 - v.getD (i - 1) 0) / d.h.getD (i - 1) 0)

instance (d : Domain) (v s : List ℚ) (i : ℕ) : Decidable (tridiagRow d v s i) := by
  unfold tridiagRow
  infer_instance

/-! ### Embedding of `C2.h` and `mixins/C2.h`: the `C2` spline family -/

/-- Embeds `C2Bounds` (C2.h:16-19). -/
inductive C2Bounds
  | Natural
  | NotAKnot
  deriving DecidableEq

/-- Forward-pass right-hand side of `C2Spline::update` (C2.h:50-67): the
same recursion as `Natural::update` but without the factor 6, because the
stored coefficients `m_6s` are pre-scaled by 6. -/
def c2Rhs (h dv : ℕ → ℚ) : ℕ → ℚ
  | 0 => 0
  | 1 => dv 1 - dv 0
  | i + 2 =>
    dv (i + 2) - dv (i + 1) -
      h (i + 2) / thomasDiag h (i + 1) * c2Rhs h dv (i + 1)

/-- Embeds `C2Spline<TDomain, TValue, B>::update` (C2.h:40-80). The boundary
template parameter `bounds` is declared but never read by the function
body, which always applies `m_6s[0] = m_6s[n-1] = 0`. -/
def c2Update (bounds : C2Bounds) (d : Domain) (v : List ℚ) : List ℚ :=
  let n := v.length
  let h := fun i => d.h.getD i 0
  let dv := fun i => (v.getD (i + 1) 0 - v.getD i 0) / h i
  (List.range n).map (fun i =>
    if i = 0 ∨ i = n - 1 then 0
    else thomasBack h (thomasDiag h) (c2Rhs h dv) n (n - 2 - i))

/-- The data of a `C2Arg` (mixins/C2.h:17-55). -/
structure C2ArgData where
  i : ℕ
  cv0 : ℚ
  cv1 : ℚ
  c6s0 : ℚ
  c6s1 : ℚ
  deriving DecidableEq

/-- Embeds `C2Arg::C2Arg` (mixins/C2.h:38-47). -/
def c2ArgOf (d : Domain) (x : ℚ) : Option C2ArgData :=
  (partIndex d x).map (fun i =>
    let h := d.h.getD i 0
    let left := x - d.u.getD i 0
    let right := h - left
    let cv0 := right / h
    let cv1 := 1 - cv0
    ⟨i, cv0, cv1, right * (right * cv0 - h), left * (left * cv1 - h)⟩)

/-- Embeds `C2SplineMixin` state (mixins/C2.h:185-189): knot values `m_v`,
pre-scaled second derivatives `m_6s` and the validity flag `m_valid`. -/
structure C2State where
  v : List ℚ
  s6 : List ℚ
  valid : Bool
  deriving DecidableEq

/-- The null-knots constructor (mixins/C2.h:87): zero values, zero
coefficients, `m_valid = true`. -/
def c2NullSpline (d : Domain) : C2State :=
  ⟨List.replicate d.u.length 0, List.replicate d.u.length 0, true⟩

/-- The value constructor (mixins/C2.h:92-94): `m_valid = false`. -/
def c2CtorWith (v : List ℚ) : C2State :=
  ⟨v, List.replicate v.length 0, false⟩

/-- Embeds `C2SplineMixin::assign` (mixins/C2.h:118-122): replace `m_v`, clear
`m_valid`, keep `m_6s`. -/
def c2Assign (st : C2State) (v : List ℚ) : C2State :=
  ⟨v, st.s6, false⟩

/-- The combination formula of `C2SplineMixin::operator()(const Arg&)`
(mixins/C2.h:150-154). -/
def c2Combine (v s6 : List ℚ) (a : C2ArgData) : ℚ :=
  v.getD a.i 0 * a.cv0 + v.getD (a.i + 1) 0 * a.cv1 +
    s6.getD a.i 0 * a.c6s0 + s6.getD (a.i + 1) 0 * a.c6s1

/-- The `update(i)` call at the top of `operator()` (mixins/C2.h:152,
C2.h:42-44): a no-op when `m_valid`, otherwise the full solve. -/
def c2EnsureValid (d : Domain) (st : C2State) : C2State :=
  if st.valid then st else ⟨st.v, c2Update C2Bounds.Natural d st.v, true⟩

/-- Embeds `C2SplineMixin::operator()(const Arg&)` (mixins/C2.h:150-154). -/
def c2EvalArg (d : Domain) (st : C2State) (a : C2ArgData) : ℚ × C2State :=
  (c2Combine (c2EnsureValid d st).v (c2EnsureValid d st).s6 a,
    c2EnsureValid d st)

/-- Batch evaluation `operator()(begin, end)` (mixins/C2.h:159-167). -/
def c2EvalList (d : Domain) (st : C2State) : List C2ArgData → List ℚ
  | [] => []
  | a :: t => (c2EvalArg d st a).1 :: c2EvalList d (c2EvalArg d st a).2 t

/-! ### Embedding of `Co.h`: the cospline -/

/-- The argument caching of `Co::Co` / `Co::assign` (Co.h:55-57, 82-89);
also the per-scalar `Arg(m_domain, x)` construction of the direct
evaluation path (mixins/C2.h:143-145). -/
def coArgs (d : Domain) : List ℚ → Option (List C2ArgData)
  | [] => some []
  | x :: t => do
    let a ← c2ArgOf d x
    let r ← coArgs d t
    pure (a :: r)

/-- Embeds `Co::operator()` (Co.h:110-114): assign the knot values to the cached
spline (constructed null at `Co` construction, Co.h:55) and evaluate it at
the cached arguments. -/
def coApply (d : Domain) (xs : List ℚ) (v : List ℚ) : Option (List ℚ) :=
  (coArgs d xs).map (c2EvalList d (c2Assign (c2NullSpline d) v))

/-- Building the spline directly from `(u, v)` (mixins/C2.h:92-94) and
evaluating it at the scalars `xs` (mixins/C2.h:143-145, 159-167). -/
def splineEvalScalars (d : Domain) (v : List ℚ) (xs : List ℚ) :
    Option (List ℚ) :=
  (coArgs d xs).map (c2EvalList d (c2CtorWith v))

/-- Embeds `SplineResampler::operator()` (Spline.h:421-425): build an early
`Spline` over the stored domain from the incoming knot values and
evaluate it at the stored arguments. -/
def oldResample (d : Domain) (xs v : List ℚ) : Option (List ℚ) :=
  (xs.mapM (splineArgOf d)).map (List.map (earlyEvalArg (earlyInit d v)))

/-- Building the early `Spline` from `(u, v)` (Spline.h:170-177) and
evaluating it at each scalar (Spline.h:305-330); early evaluation is
read-only, so the batch is the per-element map. -/
def oldSplineBatch (d : Domain) (v xs : List ℚ) : Option (List ℚ) :=
  (xs.mapM (splineArgOf d)).map (List.map (earlyEvalArg (earlyInit d v)))

/-! ### Embedding of `Linspace.h`: the uniform domain -/

/-- Truncation toward zero: the C++ `double` → `Linx::Index` conversion
applied by `Linspace::index`. -/
def truncQ (q : ℚ) : ℤ :=
  if q < 0 then ⌈q⌉ else ⌊q⌋

/-- Embeds `Linspace` (Linspace.h:39): first abscissa `m_front`, constant step
`m_h`, knot count `m_ssize`. -/
structure Linspace where
  front : ℚ
  step : ℚ
  size : ℤ
  deriving DecidableEq

/-- Embeds `Linspace::back` (Linspace.h:52-55): `operator[](ssize() - 1)`. -/
def Linspace.back (L : Linspace) : ℚ :=
  L.front + (L.size - 1) * L.step

/-- Embeds `Linspace::index` (Linspace.h:92-95): `Index((x - front)/h)` with no
bounds check; it never throws. -/
def Linspace.index (L : Linspace) (x : ℚ) : ℤ :=
  truncQ ((x - L.front) / L.step)

/-! ### Embedding of `BiSpline.h`: the bivariate cospline -/

/-- The clipped 4x4 neighborhood condition of the mask-marking loops in
`BiCospline::BiCospline` (BiSpline.h:90-98): knot `(j0, j1)` is in the
box of a trajectory point with interval indices `(i0, i1)`. -/
def boxCond (n0 n1 : ℤ) (pr p : ℤ × ℤ) : Prop :=
  max (pr.1 - 1) 0 ≤ p.1 ∧ p.1 ≤ min (pr.1 + 2) (n0 - 1) ∧
    max (pr.2 - 1) 0 ≤ p.2 ∧ p.2 ≤ min (pr.2 + 2) (n1 - 1)

instance (n0 n1 : ℤ) (pr p : ℤ × ℤ) : Decidable (boxCond n0 n1 pr p) := by
  unfold boxCond
  infer_instance

/-- Marking one trajectory point's box in the mask (BiSpline.h:94-98). -/
def markBox (n0 n1 : ℤ) (pr : ℤ × ℤ) (m : ℤ × ℤ → Bool) : ℤ × ℤ → Bool :=
  fun p => if boxCond n0 n1 pr p then true else m p

/-- The occupancy mask `m_mask` built by `BiCospline::BiCospline`
(BiSpline.h:81-101) from the interval-index pairs of the trajectory. -/
def biMask (n0 n1 : ℤ) (idx : List (ℤ × ℤ)) : ℤ × ℤ → Bool :=
  idx.foldl (fun m pr => markBox n0 n1 pr m) (fun _ => false)

/-- The interval-index pairs of the stored arguments (BiSpline.h:87-89). -/
def biIndices (args : List (C2ArgData × C2ArgData)) : List (ℤ × ℤ) :=
  args.map (fun a => ((a.1.i : ℤ), (a.2.i : ℤ)))

/-- Embeds `BiCospline::BiCospline` argument construction (BiSpline.h:86-99):
one argument per axis per trajectory point. -/
def biArgs (d0 d1 : Domain) : List (ℚ × ℚ) → Option (List (C2ArgData × C2ArgData))
  | [] => some []
  | p :: t => do
    let a0 ← c2ArgOf d0 p.1
    let a1 ← c2ArgOf d1 p.2
    let r ← biArgs d0 d1 t
    pure ((a0, a1) :: r)

/-- The knot values held by the axis-0 spline of column `j1` after the
masked writes of `BiCospline::operator()` (BiSpline.h:124-126): each of
the `m_splines0` starts from the null constructor (all-zero values of
length `n0`) and `set(p[0], v[p])` is called exactly at the masked
positions `p` with `p[1] = j1`. -/
def axis0V (n0 : ℕ) (mask : ℤ × ℤ → Bool) (v : ℤ × ℤ → ℚ) (j1 : ℤ) :
    List ℚ :=
  (List.range n0).map (fun j0 => if mask ((j0 : ℤ), j1) then v ((j0 : ℤ), j1) else 0)

/-- Whether the axis-0 spline of column `j1` received any `set` call
(each of which clears its `m_valid`, mixins/C2.h:345-349). -/
def colTouched (n0 : ℕ) (mask : ℤ × ℤ → Bool) (j1 : ℤ) : Bool :=
  (List.range n0).any (fun j0 => mask ((j0 : ℤ), j1))

/-- Evaluation `m_splines0[j1](x[0])` inside the trajectory loop
(BiSpline.h:135).  The column's knot values are fixed once the masked
writes are done, so its lazily solved coefficient cache always equals the
solve of that fixed vector and repeated evaluations all return this
value. -/
def spline0Eval (d0 : Domain) (n0 : ℕ) (mask : ℤ × ℤ → Bool)
    (v : ℤ × ℤ → ℚ) (j1 : ℤ) (a0 : C2ArgData) : ℚ :=
  (c2EvalArg d0
    ⟨axis0V n0 mask v j1, List.replicate n0 0, !colTouched n0 mask j1⟩
    a0).1

/-- The integer window `[lo, hi]` as a list. -/
def windowInts (lo hi : ℤ) : List ℤ :=
  (List.range (hi + 1 - lo).toNat).map (fun k => lo + (k : ℤ))

/-- One trajectory point of `BiCospline::operator()` (BiSpline.h:130-138):
write the axis-1 window of effective knot values into `m_spline1` (each
`set` clears `m_valid`), then evaluate `m_spline1` at the point's axis-1
argument. -/
def biStep (d0 d1 : Domain) (n0 : ℕ) (n1 : ℤ) (mask : ℤ × ℤ → Bool)
    (v : ℤ × ℤ → ℚ) (st : C2State) (a : C2ArgData × C2ArgData) :
    ℚ × C2State :=
  let w := windowInts (max ((a.2.i : ℤ) - 1) 0) (min ((a.2.i : ℤ) + 2) (n1 - 1))
  let v1 := w.foldl (fun vv i => vv.set i.toNat (spline0Eval d0 n0 mask v i a.1)) st.v
  c2EvalArg d1 ⟨v1, st.s6, if w.isEmpty then st.valid else false⟩ a.2

/-- The trajectory loop of `BiCospline::operator()` (BiSpline.h:130-138),
threading the axis-1 spline state. -/
def biRun (d0 d1 : Domain) (n0 : ℕ) (n1 : ℤ) (mask : ℤ × ℤ → Bool)
    (v : ℤ × ℤ → ℚ) (st : C2State) : List (C2ArgData × C2ArgData) → List ℚ
  | [] => []
  | a :: t =>
    (biStep d0 d1 n0 n1 mask v st a).1 ::
      biRun d0 d1 n0 n1 mask v (biStep d0 d1 n0 n1 mask v st a).2 t

/-- Embeds `BiCospline::operator()` (BiSpline.h:121-140): masked writes into the
axis-0 splines, then the trajectory loop; `m_spline1` starts from the
null constructor (BiSpline.h:83). -/
def biApply (d0 d1 : Domain) (args : List (C2ArgData × C2ArgData))
    (v : ℤ × ℤ → ℚ) : List ℚ :=
  biRun d0 d1 d0.u.length (d1.u.length : ℤ)
    (biMask (d0.u.length : ℤ) (d1.u.length : ℤ) (biIndices args)) v
    (c2NullSpline d1) args

/-! ### Concrete inputs used by the counterexample and divergence runs -/

/-- The non-uniform domain on knots `0, 1, 3, 4`. -/
def domainC1 : Domain :=
  ⟨[0, 1, 3, 4], [1, 2, 1]⟩

/-- The uniform domain on knots `0, 1, 2, 3`. -/
def domain0123 : Domain :=
  ⟨[0, 1, 2, 3], [1, 1, 1, 1]⟩

/-- A lazily cached spline on `domain0123` with all-zero knot values whose
coefficients are all valid: value constructor followed by a full
`update()`. -/
def c2AllValid : LazySpline :=
  lazyUpdate domain0123 (lazyInit [0, 0, 0, 0])

/-- Policy-divergence run, early policy: build on knot values
`(0, 0, 0, 0)`, evaluate at `x = 1/2`, set `v(2) = 6`, evaluate at
`x = 1/2` again; the value of the second evaluation. -/
def c3EarlyRun : Option ℚ :=
  (splineArgOf domain0123 (1 / 2)).map (fun a =>
    earlyEvalArg (earlySetV domain0123 (earlyInit domain0123 [0, 0, 0, 0]) 2 6) a)

/-- The first evaluation of the early run. -/
def c3EarlyFirst : Option ℚ :=
  (splineArgOf domain0123 (1 / 2)).map
    (earlyEvalArg (earlyInit domain0123 [0, 0, 0, 0]))

/-- Policy-divergence run, lazy policy: the same sequence (build on
`(0, 0, 0, 0)`, evaluate at `1/2`, set `v(2) = 6`, evaluate at `1/2`),
threading the cache state. -/
def c3LazyRun : Option ℚ :=
  (splineArgOf domain0123 (1 / 2)).map (fun a =>
    (lazyEvalArg domain0123
      (lazySetV (lazyEvalArg domain0123 (lazyInit [0, 0, 0, 0]) a).2 2 6) a).1)

/-- The first evaluation of the lazy run. -/
def c3LazyFirst : Option ℚ :=
  (splineArgOf domain0123 (1 / 2)).map (fun a =>
    (lazyEvalArg domain0123 (lazyInit [0, 0, 0, 0]) a).1)

/-- A `Linspace` with `front = 0`, `step = 1`, `size = 4`. -/
def linspace014 : Linspace :=
  ⟨0, 1, 4⟩

/-- The argument of `x0 = 1/2` on `domain0123`, used by the C9 run. -/
def c9Arg0 : C2ArgData :=
  ⟨0, 1/2, 1/2, -3/8, -3/8⟩

/-- The argument of `x1 = 3/2` on `domain0123`, used by the C9 run. -/
def c9Arg1 : C2ArgData :=
  ⟨1, 1/2, 1/2, -3/8, -3/8⟩

/-- A value grid equal to 5 at knot `(3, 3)` and 0 elsewhere. -/
def c9VGrid : ℤ × ℤ → ℚ :=
  fun p => if p = (3, 3) then 5 else 0

/-! ### Basic facts about domain construction -/

theorem diffs_length : ∀ u : List ℚ, (diffs u).length + 1 = max u.length 1
  | [] => rfl
  | [_] => rfl
  | _ :: y :: t => by
    have ih := diffs_length (y :: t)
    simp only [diffs, List.length_cons] at ih ⊢
    omega

theorem diffs_getD (u : List ℚ) (i : ℕ) (hi : i + 1 < u.length) :
    (diffs u).getD i 0 = u.getD (i + 1) 0 - u.getD i 0 := by
  induction u generalizing i with
  | nil => simp at hi
  | cons a t ih =>
    match t, i with
    | [], _ => simp at hi
    | b :: t, 0 => simp [diffs]
    | b :: t, i + 1 =>
      have := ih (i := i) (by simpa using hi)
      simpa [diffs] using this

theorem diffs_pos_iff_chain (u : List ℚ) :
    ((diffs u).all (fun h => decide (0 < h)) = true) ↔ u.Chain' (· < ·) := by
  induction u with
  | nil => simp [diffs]
  | cons a t ih =>
    match t with
    | [] => simp [diffs]
    | b :: t =>
      simp only [diffs, List.all_cons, Bool.and_eq_true, decide_eq_true_eq,
        List.chain'_cons] at ih ⊢
      rw [ih]
      constructor
      · rintro ⟨h1, h2⟩; exact ⟨by linarith, h2⟩
      · rintro ⟨h1, h2⟩; exact ⟨by linarith, h2⟩

theorem mkDomain_some_iff (u : List ℚ) :
    (mkDomain u).isSome ↔ 3 ≤ u.length ∧ u.Chain' (· < ·) := by
  unfold mkDomain
  by_cases h3 : u.length < 3
  · rw [if_pos h3]
    simp only [Option.isSome_none, Bool.false_eq_true, false_iff, not_and]
    omega
  · rw [if_neg h3]
    by_cases hc : (diffs u).all (fun h => decide (0 < h)) = true
    · rw [if_pos hc]
      simp only [Option.isSome_some, true_iff]
      exact ⟨by omega, (diffs_pos_iff_chain u).mp hc⟩
    · rw [if_neg hc]
      simp only [Option.isSome_none, Bool.false_eq_true, false_iff, not_and]
      intro _ hch
      exact hc ((diffs_pos_iff_chain u).mpr hch)

theorem mkDomain_elim (u : List ℚ) (d : Domain) (hd : mkDomain u = some d) :
    d.u = u ∧ d.h = diffs u ∧ 3 ≤ u.length ∧ u.Chain' (· < ·) := by
  have hs : (mkDomain u).isSome := by rw [hd]; rfl
  have := (mkDomain_some_iff u).mp hs
  unfold mkDomain at hd
  rcases this with ⟨h3, hc⟩
  rw [if_neg (by omega), if_pos ((diffs_pos_iff_chain u).mpr hc)] at hd
  cases hd
  exact ⟨rfl, rfl, h3, hc⟩

/-- Strict monotonicity of the abscissae, index form. -/
theorem chain_lt_getD (u : List ℚ) (hc : u.Chain' (· < ·)) (i j : ℕ)
    (hij : i < j) (hj : j < u.length) : u.getD i 0 < u.getD j 0 := by
  have hp : u.Pairwise (· < ·) := List.chain'_iff_pairwise.mp hc
  rw [List.pairwise_iff_get] at hp
  have hi : i < u.length := lt_trans hij hj
  have := hp ⟨i, hi⟩ ⟨j, hj⟩ (by simpa using hij)
  simpa [List.getD_eq_getElem?_getD, List.getElem?_eq_getElem, hi, hj] using this

theorem chain_le_getD (u : List ℚ) (hc : u.Chain' (· < ·)) (i j : ℕ)
    (hij : i ≤ j) (hj : j < u.length) : u.getD i 0 ≤ u.getD j 0 := by
  rcases eq_or_lt_of_le hij with rfl | h
  · exact le_refl _
  · exact le_of_lt (chain_lt_getD u hc i j h hj)

/-! ### The reverse scan -/

theorem scanDown_le (u : List ℚ) (x : ℚ) (i : ℕ) : scanDown u x i ≤ i := by
  induction i with
  | zero => exact le_refl 0
  | succ i ih =>
    unfold scanDown
    by_cases h : x < u.getD (i + 1) 0
    · rw [if_pos h]; omega
    · rw [if_neg h]

theorem scanDown_left_le (u : List ℚ) (x : ℚ) (i : ℕ)
    (h0 : u.getD 0 0 ≤ x) : u.getD (scanDown u x i) 0 ≤ x := by
  induction i with
  | zero => simpa [scanDown] using h0
  | succ i ih =>
    unfold scanDown
    by_cases h : x < u.getD (i + 1) 0
    · rw [if_pos h]; exact ih
    · rw [if_neg h]; exact le_of_not_lt h

theorem scanDown_lt_right (u : List ℚ) (x : ℚ) (i : ℕ)
    (hx : x < u.getD (i + 1) 0) :
    scanDown u x i = i ∨ x < u.getD (scanDown u x i + 1) 0 := by
  induction i with
  | zero => exact Or.inl rfl
  | succ i ih =>
    unfold scanDown
    by_cases h : x < u.getD (i + 1) 0
    · rw [if_pos h]
      rcases ih h with he | hlt
      · exact Or.inr (by rw [he]; exact h)
      · exact Or.inr hlt
    · rw [if_neg h]
      exact Or.inl rfl

theorem scanDown_ge (u : List ℚ) (x : ℚ) (i j : ℕ) (hj : j ≤ i)
    (hx : u.getD j 0 ≤ x) : j ≤ scanDown u x i := by
  induction i with
  | zero => omega
  | succ i ih =>
    unfold scanDown
    by_cases h : x < u.getD (i + 1) 0
    · rw [if_pos h]
      have hji : j ≤ i := by
        rcases Nat.lt_or_ge j (i + 1) with h1 | h1
        · omega
        · have hji1 : j = i + 1 := by omega
          subst hji1
          exact absurd hx (not_le.mpr h)
      exact ih hji
    · rw [if_neg h]; omega

/-- The scan from `n2` lands exactly on `i` when `u[i] <= x < u[i+1]`. -/
theorem scanDown_eq (u : List ℚ) (hc : u.Chain' (· < ·)) (n2 i : ℕ)
    (hn2 : n2 + 1 < u.length) (hi : i ≤ n2) (x : ℚ)
    (hlo : u.getD i 0 ≤ x) (hhi : x < u.getD (i + 1) 0) :
    scanDown u x n2 = i := by
  have hge : i ≤ scanDown u x n2 := scanDown_ge u x n2 i hi hlo
  have hle : scanDown u x n2 ≤ i := by
    by_contra hgt
    push_neg at hgt
    have hr2 : scanDown u x n2 ≤ n2 := scanDown_le u x n2
    have h0x : u.getD 0 0 ≤ x :=
      le_trans (chain_le_getD u hc 0 i (Nat.zero_le i) (by omega)) hlo
    have hrx : u.getD (scanDown u x n2) 0 ≤ x := scanDown_left_le u x n2 h0x
    have : u.getD (i + 1) 0 ≤ u.getD (scanDown u x n2) 0 :=
      chain_le_getD u hc (i + 1) (scanDown u x n2) (by omega) (by omega)
    linarith
  omega

/-! ### Embedding of `Partition::index` characterization -/

theorem domain_h_getD (u : List ℚ) (d : Domain) (hd : mkDomain u = some d)
    (i : ℕ) (hi : i + 1 < u.length) :
    d.h.getD i 0 = u.getD (i + 1) 0 - u.getD i 0 := by
  rw [(mkDomain_elim u d hd).2.1]
  exact diffs_getD u i hi

theorem domain_h_pos (u : List ℚ) (d : Domain) (hd : mkDomain u = some d)
    (i : ℕ) (hi : i + 1 < u.length) : 0 < d.h.getD i 0 := by
  rw [domain_h_getD u d hd i hi]
  have := chain_lt_getD u (mkDomain_elim u d hd).2.2.2 i (i + 1) (by omega) hi
  linarith

theorem partIndex_eq_scan (u : List ℚ) (d : Domain) (hd : mkDomain u = some d)
    (x : ℚ) (hx0 : u.getD 0 0 ≤ x) (hx1 : x ≤ u.getD (u.length - 1) 0) :
    partIndex d x = some (scanDown u x (u.length - 2)) := by
  unfold partIndex
  rw [(mkDomain_elim u d hd).1]
  rw [if_neg (not_lt.mpr hx0), if_neg (not_lt.mpr hx1)]

theorem partIndex_at_knot (u : List ℚ) (d : Domain) (hd : mkDomain u = some d)
    (i : ℕ) (hi : i + 1 < u.length) : partIndex d (u.getD i 0) = some i := by
  obtain ⟨hu, hh, h3, hc⟩ := mkDomain_elim u d hd
  have hx0 : u.getD 0 0 ≤ u.getD i 0 := chain_le_getD u hc 0 i (Nat.zero_le i) (by omega)
  have hx1 : u.getD i 0 ≤ u.getD (u.length - 1) 0 :=
    chain_le_getD u hc i (u.length - 1) (by omega) (by omega)
  rw [partIndex_eq_scan u d hd _ hx0 hx1]
  rw [scanDown_eq u hc (u.length - 2) i (by omega) (by omega) _ (le_refl _)
    (chain_lt_getD u hc i (i + 1) (by omega) hi)]

theorem partIndex_at_top (u : List ℚ) (d : Domain) (hd : mkDomain u = some d) :
    partIndex d (u.getD (u.length - 1) 0) = some (u.length - 2) := by
  obtain ⟨hu, hh, h3, hc⟩ := mkDomain_elim u d hd
  have hx0 : u.getD 0 0 ≤ u.getD (u.length - 1) 0 :=
    chain_le_getD u hc 0 (u.length - 1) (by omega) (by omega)
  rw [partIndex_eq_scan u d hd _ hx0 (le_refl _)]
  have hle := scanDown_le u (u.getD (u.length - 1) 0) (u.length - 2)
  have hge := scanDown_ge u (u.getD (u.length - 1) 0) (u.length - 2)
    (u.length - 2) (le_refl _)
    (chain_le_getD u hc (u.length - 2) (u.length - 1) (by omega) (by omega))
  have : scanDown u (u.getD (u.length - 1) 0) (u.length - 2) = u.length - 2 := by omega
  rw [this]

theorem partIndex_at_mid (u : List ℚ) (d : Domain) (hd : mkDomain u = some d)
    (i : ℕ) (hi : i + 1 < u.length) :
    partIndex d ((u.getD i 0 + u.getD (i + 1) 0) / 2) = some i := by
  obtain ⟨hu, hh, h3, hc⟩ := mkDomain_elim u d hd
  have hlt : u.getD i 0 < u.getD (i + 1) 0 := chain_lt_getD u hc i (i + 1) (by omega) hi
  have hlo : u.getD i 0 ≤ (u.getD i 0 + u.getD (i + 1) 0) / 2 := by linarith
  have hhi : (u.getD i 0 + u.getD (i + 1) 0) / 2 < u.getD (i + 1) 0 := by linarith
  have hx0 : u.getD 0 0 ≤ (u.getD i 0 + u.getD (i + 1) 0) / 2 :=
    le_trans (chain_le_getD u hc 0 i (Nat.zero_le i) (by omega)) hlo
  have hx1 : (u.getD i 0 + u.getD (i + 1) 0) / 2 ≤ u.getD (u.length - 1) 0 :=
    le_trans (le_of_lt hhi) (chain_le_getD u hc (i + 1) (u.length - 1) (by omega) (by omega))
  rw [partIndex_eq_scan u d hd _ hx0 hx1]
  rw [scanDown_eq u hc (u.length - 2) i (by omega) (by omega) _ hlo hhi]

theorem partIndex_some_spec (u : List ℚ) (d : Domain) (hd : mkDomain u = some d)
    (x : ℚ) (i : ℕ) (hpi : partIndex d x = some i) :
    u.getD i 0 ≤ x ∧ (x < u.getD (i + 1) 0 ∨ i = u.length - 2) ∧ i ≤ u.length - 2 := by
  obtain ⟨hu, hh, h3, hc⟩ := mkDomain_elim u d hd
  unfold partIndex at hpi
  rw [hu] at hpi
  by_cases g0 : x < u.getD 0 0
  · rw [if_pos g0] at hpi; exact absurd hpi (by simp)
  · rw [if_neg g0] at hpi
    by_cases g1 : u.getD (u.length - 1) 0 < x
    · rw [if_pos g1] at hpi; exact absurd hpi (by simp)
    · rw [if_neg g1] at hpi
      have hsc : scanDown u x (u.length - 2) = i := Option.some.inj hpi
      have hle : i ≤ u.length - 2 := hsc ▸ scanDown_le u x (u.length - 2)
      have hlx : u.getD i 0 ≤ x := hsc ▸ scanDown_left_le u x (u.length - 2) (not_lt.mp g0)
      refine ⟨hlx, ?_, hle⟩
      by_cases gt : x < u.getD (u.length - 1) 0
      · have h1 : x < u.getD (u.length - 2 + 1) 0 := by
          have : u.length - 2 + 1 = u.length - 1 := by omega
          rw [this]; exact gt
        rcases scanDown_lt_right u x (u.length - 2) h1 with he | hlt
        · exact Or.inr (by omega)
        · exact Or.inl (by rw [← hsc]; exact hlt)
      · have hxe : x = u.getD (u.length - 1) 0 := le_antisymm (not_lt.mp g1) (not_lt.mp gt)
        have hge : u.length - 2 ≤ scanDown u x (u.length - 2) := by
          apply scanDown_ge u x (u.length - 2) (u.length - 2) (le_refl _)
          rw [hxe]
          exact chain_le_getD u hc (u.length - 2) (u.length - 1) (by omega) (by omega)
        exact Or.inr (by omega)

theorem partIndex_none_iff (u : List ℚ) (d : Domain) (hd : mkDomain u = some d)
    (x : ℚ) : partIndex d x = none ↔ (x < u.getD 0 0 ∨ u.getD (u.length - 1) 0 < x) := by
  obtain ⟨hu, hh, h3, hc⟩ := mkDomain_elim u d hd
  unfold partIndex
  rw [hu]
  by_cases g0 : x < u.getD 0 0
  · rw [if_pos g0]
    exact iff_of_true rfl (Or.inl g0)
  · rw [if_neg g0]
    by_cases g1 : u.getD (u.length - 1) 0 < x
    · rw [if_pos g1]
      exact iff_of_true rfl (Or.inr g1)
    · rw [if_neg g1]
      constructor
      · intro h
        exact absurd h (by simp)
      · intro h
        rcases h with h | h
        · exact absurd h g0
        · exact absurd h g1

/-- C5: for a valid domain, `index(u[i]) = i` on every subinterval start,
`index(u[n-1]) = n-2`, midpoints resolve to their subinterval, a returned
index `i` satisfies `u[i] <= x` with `x < u[i+1]` except in the rightmost
(closed-closed) interval, and `index` fails exactly when `x < u[0]` or
`x > u[n-1]`. -/
theorem c5_partition_index (u : List ℚ) (d : Domain) (hd : mkDomain u = some d) :
    (∀ i, i + 1 < u.length → partIndex d (u.getD i 0) = some i) ∧
    partIndex d (u.getD (u.length - 1) 0) = some (u.length - 2) ∧
    (∀ i, i + 1 < u.length →
      partIndex d ((u.getD i 0 + u.getD (i + 1) 0) / 2) = some i) ∧
    (∀ x i, partIndex d x = some i →
      u.getD i 0 ≤ x ∧ (x < u.getD (i + 1) 0 ∨ i = u.length - 2) ∧ i ≤ u.length - 2) ∧
    (∀ x, partIndex d x = none ↔ (x < u.getD 0 0 ∨ u.getD (u.length - 1) 0 < x)) :=
  ⟨fun i hi => partIndex_at_knot u d hd i hi,
    partIndex_at_top u d hd,
    fun i hi => partIndex_at_mid u d hd i hi,
    fun x i hpi => partIndex_some_spec u d hd x i hpi,
    fun x => partIndex_none_iff u d hd x⟩

/-- Witness for C5 on the concrete domain `{0, 1, 3, 4}`. -/
theorem c5_partition_index_witness :
    mkDomain [0, 1, 3, 4] = some domainC1 ∧
    partIndex domainC1 (([0, 1, 3, 4] : List ℚ).getD 1 0) = some 1 ∧
    partIndex domainC1 (([0, 1, 3, 4] : List ℚ).getD 3 0) = some 2 ∧
    partIndex domainC1
      ((([0, 1, 3, 4] : List ℚ).getD 1 0 + ([0, 1, 3, 4] : List ℚ).getD 2 0) / 2) = some 1 ∧
    (partIndex domainC1 5 = none ↔
      ((5 : ℚ) < ([0, 1, 3, 4] : List ℚ).getD 0 0 ∨
        ([0, 1, 3, 4] : List ℚ).getD 3 0 < 5)) := by
  have hd : mkDomain [0, 1, 3, 4] = some domainC1 := by
    norm_num [mkDomain, diffs, domainC1]
  have h := c5_partition_index [0, 1, 3, 4] domainC1 hd
  exact ⟨hd, h.1 1 (by norm_num), h.2.1, h.2.2.1 1 (by norm_num), h.2.2.2.2 5⟩

/-! ### C6: evaluation at a knot reproduces the knot value -/

/-- The cubic correction weight vanishes when the offset equals the
interval length (or is zero). -/
theorem cubic_weight_zero (H : ℚ) (hne : H ≠ 0) :
    H * H * H / (6 * H) - H * H / 6 = 0 := by
  field_simp
  ring

/-- C6: for a valid domain, evaluating the spline combination formula at
any knot abscissa `u[i]` returns `v[i]` exactly, whatever the coefficient
list `s` is, because the `cs0`/`cs1` weights of the argument vanish
there. -/
theorem c6_knot_passthrough (u : List ℚ) (d : Domain) (hd : mkDomain u = some d)
    (v s : List ℚ) (i : ℕ) (hi : i < u.length) :
    ∃ a, splineArgOf d (u.getD i 0) = some a ∧ splineCombine v s a = v.getD i 0 := by
  obtain ⟨hu, hh, h3, hc⟩ := mkDomain_elim u d hd
  by_cases hcase : i + 1 < u.length
  · have hpi := partIndex_at_knot u d hd i hcase
    have hne : d.h.getD i 0 ≠ 0 := ne_of_gt (domain_h_pos u d hd i hcase)
    refine ⟨_, by rw [splineArgOf, hpi]; rfl, ?_⟩
    simp only [splineCombine, hu, sub_self, sub_zero]
    rw [div_self hne, cubic_weight_zero _ hne]
    simp
  · have hieq : i = u.length - 1 := by omega
    have hi2 : u.length - 2 + 1 < u.length := by omega
    have hidx : u.length - 2 + 1 = u.length - 1 := by omega
    have hpi := partIndex_at_top u d hd
    have hne : d.h.getD (u.length - 2) 0 ≠ 0 :=
      ne_of_gt (domain_h_pos u d hd (u.length - 2) hi2)
    have hleft : u.getD (u.length - 1) 0 - u.getD (u.length - 2) 0 =
        d.h.getD (u.length - 2) 0 := by
      rw [domain_h_getD u d hd (u.length - 2) hi2, hidx]
    rw [hieq]
    refine ⟨_, by rw [splineArgOf, hpi]; rfl, ?_⟩
    simp only [splineCombine, hu, hleft, sub_self, hidx]
    rw [div_self hne, cubic_weight_zero _ hne]
    simp

/-- Witness for C6: the spline with knot values `(5, 7, 2, 9)` on the
domain `{0, 1, 3, 4}` reproduces the last knot value at `x = 4`, for an
arbitrary coefficient list. -/
theorem c6_knot_passthrough_witness :
    ∃ a, splineArgOf domainC1 (([0, 1, 3, 4] : List ℚ).getD 3 0) = some a ∧
      splineCombine [5, 7, 2, 9] [1, 1, 1, 1] a = ([5, 7, 2, 9] : List ℚ).getD 3 0 :=
  c6_knot_passthrough [0, 1, 3, 4] domainC1
    (by norm_num [mkDomain, diffs, domainC1]) [5, 7, 2, 9] [1, 1, 1, 1] 3 (by norm_num)

/-! ### C8: domain construction -/

/-- C8: `Partition` construction succeeds exactly on sequences of at
least 3 strictly increasing points, and on success it stores the `n - 1`
subinterval lengths `h[i] = u[i+1] - u[i]`, all positive. -/
theorem c8_domain_construction (u : List ℚ) :
    ((mkDomain u).isSome ↔ 3 ≤ u.length ∧ u.Chain' (· < ·)) ∧
    (∀ d, mkDomain u = some d →
      d.u = u ∧ d.h = diffs u ∧ d.h.length + 1 = u.length ∧
      (∀ i, i + 1 < u.length → d.h.getD i 0 = u.getD (i + 1) 0 - u.getD i 0) ∧
      (∀ i, i + 1 < u.length → 0 < d.h.getD i 0)) := by
  refine ⟨mkDomain_some_iff u, fun d hd => ?_⟩
  obtain ⟨hu, hh, h3, hc⟩ := mkDomain_elim u d hd
  refine ⟨hu, hh, ?_, fun i hi => domain_h_getD u d hd i hi,
    fun i hi => domain_h_pos u d hd i hi⟩
  rw [hh]
  have := diffs_length u
  omega

/-- Witness for C8 on the concrete input `[0, 1, 3, 4]`. -/
theorem c8_domain_construction_witness :
    ((mkDomain [0, 1, 3, 4]).isSome ↔
      3 ≤ ([0, 1, 3, 4] : List ℚ).length ∧ ([0, 1, 3, 4] : List ℚ).Chain' (· < ·)) ∧
    domainC1.h.length + 1 = ([0, 1, 3, 4] : List ℚ).length ∧
    domainC1.h.getD 1 0 = ([0, 1, 3, 4] : List ℚ).getD 2 0 - ([0, 1, 3, 4] : List ℚ).getD 1 0 ∧
    0 < domainC1.h.getD 1 0 := by
  have h := c8_domain_construction [0, 1, 3, 4]
  have hd : mkDomain [0, 1, 3, 4] = some domainC1 := by
    norm_num [mkDomain, diffs, domainC1]
  obtain ⟨-, -, hlen, hget, hpos⟩ := h.2 domainC1 hd
  exact ⟨h.1, hlen, hget 1 (by norm_num), hpos 1 (by norm_num)⟩

/-! ### C1: the Thomas solve on a non-uniform domain -/

/-- C1 (refuting computation): on the non-uniform domain `{0, 1, 3, 4}`
with knot values `(0, 0, 0, 6)`, `Natural::update` returns
`s = (0, -72/35, 216/35, 0)`, which satisfies row 1 of the natural-spline
tridiagonal system but violates row 2: the forward elimination uses the
multiplier `w = h[i]/b[i-1]` where the Thomas algorithm requires
`h[i-1]/b[i-1]`, so the output is not a solution of the system on
non-uniform spacings. -/
theorem c1_thomas_residual :
    naturalUpdate domainC1 [0, 0, 0, 6] = [0, -72/35, 216/35, 0] ∧
    tridiagRow domainC1 [0, 0, 0, 6] (naturalUpdate domainC1 [0, 0, 0, 6]) 1 ∧
    ¬ tridiagRow domainC1 [0, 0, 0, 6] (naturalUpdate domainC1 [0, 0, 0, 6]) 2 := by
  have h1 : naturalUpdate domainC1 [0, 0, 0, 6] = [0, -72/35, 216/35, 0] := by
    norm_num [naturalUpdate, domainC1, List.range_succ, thomasBack, thomasDiag, thomasRhs]
  refine ⟨h1, ?_, ?_⟩
  · rw [h1]
    norm_num [tridiagRow, domainC1]
  · rw [h1]
    norm_num [tridiagRow, domainC1]

/-! ### C2: lazy invalidation after a single-knot write -/

/-- C2 (refuting computation): on the 4-knot lazy spline with all
coefficients valid, setting knot `i = 2` must (per the claim) invalidate
exactly indices `max(1, 1) .. min(3, 2) = {1, 2}`; the code leaves
coefficient 1 valid and removes only index 2 from the cache. -/
theorem c2_invalidation_divergence :
    lazyValid c2AllValid 1 = true ∧ lazyValid c2AllValid 2 = true ∧
    (if 1 < 2 then 2 - 1 else 1) = 1 ∧ min (2 + 1) (c2AllValid.v.length - 2) = 2 ∧
    lazyValid (lazySetV c2AllValid 2 6) 2 = false ∧
    lazyValid (lazySetV c2AllValid 2 6) 1 = true := by
  have hcache : c2AllValid.cache = ({0, 3} : Finset ℕ) ∪ Finset.Icc 1 2 := by
    simp only [c2AllValid, lazyUpdate, lazyInit, List.length_cons, List.length_nil,
      List.length_replicate]
  have hvlen : c2AllValid.v.length = 4 := by
    simp only [c2AllValid, lazyUpdate, lazyInit, List.length_cons, List.length_nil]
  have hset : (lazySetV c2AllValid 2 6).cache = c2AllValid.cache.erase 2 := by
    rw [lazySetV, if_pos (by rw [hvlen]; decide)]
  refine ⟨?_, ?_, rfl, by rw [hvlen]; decide, ?_, ?_⟩
  · rw [lazyValid, hcache]
    simp [Finset.mem_union, Finset.mem_Icc]
  · rw [lazyValid, hcache]
    simp [Finset.mem_union, Finset.mem_Icc]
  · rw [lazyValid, hset, hcache]
    simp [Finset.mem_erase]
  · rw [lazyValid, hset, hcache]
    simp [Finset.mem_erase, Finset.mem_union, Finset.mem_Icc]

/-! ### C3: eager/lazy policy divergence -/

set_option maxHeartbeats 1000000 in
/-- C3 auxiliary computation: the spline argument at `x = 1/2`. -/
theorem c3_arg_value : splineArgOf domain0123 (1 / 2) =
    some ⟨0, 1/2, 1/2, -1/16, -1/16⟩ := by
  norm_num [splineArgOf, partIndex, scanDown, domain0123]

set_option maxHeartbeats 1000000 in
/-- C3 (refuting computation): starting from knot values `(0, 0, 0, 0)`
on the uniform domain `{0, 1, 2, 3}`, the early and lazy splines agree on
a first evaluation at `x = 1/2`; after the identical mutation
`v(2) = 6` is applied to both, the early spline evaluates to `-3/8` at
`x = 1/2` while the lazy spline still returns the stale `0`, because
`v(i, value)` erased only index `i = 2` from the cache and left the
now-stale coefficient 1 marked valid. -/
theorem c3_policy_divergence :
    c3EarlyFirst = c3LazyFirst ∧
    c3EarlyRun = some (-3/8) ∧ c3LazyRun = some 0 := by
  have harg := c3_arg_value
  have hfull : fullRows domain0123 [0, 0, 0, 0] [0, 0, 0, 0] = [0, 0, 0, 0] := by
    norm_num [fullRows, updateRow, domain0123, List.range_succ]
  have hfull2 : fullRows domain0123 [0, 0, 6, 0] [0, 0, 0, 0] = [0, 6, -12, 0] := by
    norm_num [fullRows, updateRow, domain0123, List.range_succ]
  have hev0 : lazyEvalArg domain0123 (lazyInit [0, 0, 0, 0])
      ⟨0, 1/2, 1/2, -1/16, -1/16⟩ =
      (0, ⟨[0, 0, 0, 0], [0, 0, 0, 0], insert 1 ({0, 3} : Finset ℕ)⟩) := by
    norm_num [lazyInit, lazyEvalArg, lazyDv2, updateRow, List.replicate]
  have hsetv : lazySetV ⟨[0, 0, 0, 0], [0, 0, 0, 0], insert 1 ({0, 3} : Finset ℕ)⟩ 2 6 =
      ⟨[0, 0, 6, 0], [0, 0, 0, 0], Finset.erase (insert 1 ({0, 3} : Finset ℕ)) 2⟩ := by
    norm_num [lazySetV]
  have hev1 : (lazyEvalArg domain0123
      ⟨[0, 0, 6, 0], [0, 0, 0, 0], Finset.erase (insert 1 ({0, 3} : Finset ℕ)) 2⟩
      ⟨0, 1/2, 1/2, -1/16, -1/16⟩).1 = 0 := by
    norm_num [lazyEvalArg, lazyDv2, Finset.mem_erase, updateRow]
  refine ⟨?_, ?_, ?_⟩
  · unfold c3EarlyFirst c3LazyFirst
    rw [harg]
    norm_num [earlyInit, earlyEvalArg, splineCombine, hfull,
      lazyInit, lazyEvalArg, lazyDv2, updateRow, List.replicate]
  · unfold c3EarlyRun
    rw [harg]
    norm_num [earlyInit, earlySetV, earlyEvalArg, splineCombine, hfull, hfull2,
      List.replicate]
  · unfold c3LazyRun
    rw [harg]
    simp only [Option.map_some']
    have h2 : (lazyEvalArg domain0123 (lazyInit [0, 0, 0, 0])
        ⟨0, 1/2, 1/2, -1/16, -1/16⟩).2 =
        ⟨[0, 0, 0, 0], [0, 0, 0, 0], insert 1 ({0, 3} : Finset ℕ)⟩ := by rw [hev0]
    rw [h2, hsetv, hev1]

/-! ### C7: the boundary-condition parameter of the C2 solver -/

/-- C7 (counterexample): on the generic input `u = (0, 1, 3, 4)`,
`v = (1, 2, 0, 3)`, the NotAKnot instantiation of `C2Spline::update`
returns exactly the Natural instantiation's coefficients, and its
boundary coefficients are the natural zeros — not distinct boundary
rows. -/
theorem c7_counterexample :
    c2Update C2Bounds.NotAKnot domainC1 [1, 2, 0, 3] =
      c2Update C2Bounds.Natural domainC1 [1, 2, 0, 3] ∧
    (c2Update C2Bounds.NotAKnot domainC1 [1, 2, 0, 3]).getD 0 0 = 0 ∧
    (c2Update C2Bounds.NotAKnot domainC1 [1, 2, 0, 3]).getD 3 0 = 0 := by
  refine ⟨rfl, ?_, ?_⟩ <;>
    norm_num [c2Update, List.range_succ, thomasBack, thomasDiag, c2Rhs, domainC1]

/-- C7 (amended): `C2Spline::update` never reads its boundary-condition
template parameter: for every pair of bounds choices and all inputs it
returns identical coefficients, so the NotAKnot variant behaves exactly
as the Natural one. -/
theorem c7_bounds_ignored (b b' : C2Bounds) (d : Domain) (v : List ℚ) :
    c2Update b d v = c2Update b' d v := rfl

/-! ### C10: the unchecked `Linspace::index` -/

/-- C10 (counterexample): on `Linspace(0, 1, 4)`, the abscissa `-1/2`
lies outside `[front, back] = [0, 3]`, yet `index` returns `0` — an
in-range subinterval index (`0 <= 0 <= size - 2`), because the
`double -> Index` conversion truncates `-1/2` toward zero. -/
theorem c10_counterexample :
    (-1/2 : ℚ) < linspace014.front ∧
    linspace014.index (-1/2) = 0 ∧
    (0 : ℤ) ≤ linspace014.index (-1/2) ∧
    linspace014.index (-1/2) ≤ linspace014.size - 2 := by
  have h : linspace014.index (-1/2) = 0 := by
    rw [linspace014, Linspace.index, truncQ]
    norm_num
  refine ⟨by norm_num [linspace014], h, by rw [h], by rw [h]; norm_num [linspace014]⟩

/-- C10 (amended): `Linspace::index` is the truncation
`Index((x - front)/step)` with no bounds checking and never raises;
`index(back()) = size - 1` (one past the largest valid subinterval
index); any `x > back` and any `x <= front - step` give out-of-range
indices, but `x` in `(front - step, front)` — outside the domain — is
truncated to the in-range index 0. -/
theorem c10_linspace_index (L : Linspace) (hs : 0 < L.step) (hn : 3 ≤ L.size) :
    (∀ x, L.index x = truncQ ((x - L.front) / L.step)) ∧
    L.index L.back = L.size - 1 ∧
    (∀ x, L.back < x → L.size - 1 ≤ L.index x) ∧
    (∀ x, x ≤ L.front - L.step → L.index x ≤ -1) ∧
    (∀ x, L.front - L.step < x → x < L.front → L.index x = 0) := by
  have hne : L.step ≠ 0 := ne_of_gt hs
  refine ⟨fun x => rfl, ?_, ?_, ?_, ?_⟩
  · rw [Linspace.index, Linspace.back]
    have : (L.front + (↑L.size - 1) * L.step - L.front) / L.step = ((L.size - 1 : ℤ) : ℚ) := by
      field_simp
    have hnn : ¬ ((L.size - 1 : ℤ) : ℚ) < 0 := by
      push_cast
      have h3 : (3 : ℚ) ≤ (L.size : ℚ) := by exact_mod_cast hn
      linarith
    rw [this, truncQ, if_neg hnn, Int.floor_intCast]
  · intro x hx
    have hr : ((L.size - 1 : ℤ) : ℚ) < (x - L.front) / L.step := by
      rw [lt_div_iff hs]
      rw [Linspace.back] at hx
      push_cast
      linarith
    have hr0 : ¬ (x - L.front) / L.step < 0 := by
      push_cast at hr
      have : (0 : ℚ) ≤ (L.size : ℚ) - 1 - 1 := by
        have : (3 : ℚ) ≤ (L.size : ℚ) := by exact_mod_cast hn
        linarith
      linarith
    rw [Linspace.index, truncQ, if_neg hr0]
    exact Int.le_floor.mpr (le_of_lt hr)
  · intro x hx
    have hr : (x - L.front) / L.step ≤ ((-1 : ℤ) : ℚ) := by
      rw [div_le_iff hs]
      push_cast
      linarith
    have hr0 : (x - L.front) / L.step < 0 := lt_of_le_of_lt hr (by norm_num)
    rw [Linspace.index, truncQ, if_pos hr0]
    exact Int.ceil_le.mpr hr
  · intro x hx1 hx2
    have hrlo : ((-1 : ℤ) : ℚ) < (x - L.front) / L.step := by
      rw [lt_div_iff hs]
      push_cast
      linarith
    have hrhi : (x - L.front) / L.step < 0 := by
      apply div_neg_of_neg_of_pos _ hs
      linarith
    rw [Linspace.index, truncQ, if_pos hrhi]
    rw [Int.ceil_eq_iff]
    constructor
    · push_cast
      push_cast at hrlo
      linarith
    · push_cast
      linarith

/-- Witness for C10 (amended) on `Linspace(0, 1, 4)`. -/
theorem c10_linspace_index_witness :
    (0 : ℚ) < linspace014.step ∧ (3 : ℤ) ≤ linspace014.size ∧
    linspace014.index linspace014.back = linspace014.size - 1 ∧
    linspace014.index 0 = truncQ ((0 - linspace014.front) / linspace014.step) := by
  have h := c10_linspace_index linspace014 (by norm_num [linspace014])
    (by norm_num [linspace014])
  exact ⟨by norm_num [linspace014], by norm_num [linspace014], h.2.1, h.1 0⟩

/-! ### C4: cospline/spline duality -/

/-- Batch evaluation on a valid `C2SplineMixin` state is the plain map of
the combination formula. -/
theorem c2EvalList_valid (d : Domain) (v s : List ℚ) (args : List C2ArgData) :
    c2EvalList d ⟨v, s, true⟩ args = args.map (c2Combine v s) := by
  induction args with
  | nil => rfl
  | cons a t ih =>
    simp [c2EvalList, c2EvalArg, c2EnsureValid, ih]

/-- Batch evaluation on an invalid `C2SplineMixin` state solves once and
then maps the combination formula with the solved coefficients. -/
theorem c2EvalList_invalid (d : Domain) (v s : List ℚ) (args : List C2ArgData) :
    c2EvalList d ⟨v, s, false⟩ args =
      args.map (c2Combine v (c2Update C2Bounds.Natural d v)) := by
  cases args with
  | nil => rfl
  | cons a t =>
    simp [c2EvalList, c2EvalArg, c2EnsureValid,
      c2EvalList_valid d v (c2Update C2Bounds.Natural d v) t]

/-- C4: the cospline applied to knot values returns exactly the values of
the spline built from those knot values evaluated at the cospline's
stored arguments — both paths reduce to one solve followed by the mapped
combination formula — and the old-generation `SplineResampler` likewise
equals the direct early-spline batch evaluation. -/
theorem c4_cospline_duality (d : Domain) (xs v : List ℚ) :
    coApply d xs v = splineEvalScalars d v xs ∧
    (∀ args, coArgs d xs = some args →
      coApply d xs v =
        some (args.map (c2Combine v (c2Update C2Bounds.Natural d v)))) ∧
    oldResample d xs v = oldSplineBatch d v xs := by
  refine ⟨?_, ?_, rfl⟩
  · unfold coApply splineEvalScalars c2Assign c2NullSpline c2CtorWith
    cases hc : coArgs d xs with
    | none => rfl
    | some args =>
      simp only [Option.map_some']
      rw [c2EvalList_invalid, c2EvalList_invalid]
  · intro args h
    unfold coApply
    rw [h]
    simp only [Option.map_some']
    rw [c2Assign, c2NullSpline, c2EvalList_invalid]

/-- Witness for C4 on the domain `{0, 1, 3, 4}`, one argument `x = 2`,
knot values `(1, 2, 0, 3)`. -/
theorem c4_cospline_duality_witness :
    coApply domainC1 [2] [1, 2, 0, 3] = splineEvalScalars domainC1 [1, 2, 0, 3] [2] ∧
    coApply domainC1 [2] [1, 2, 0, 3] =
      some ([⟨1, 1/2, 1/2, -3/2, -3/2⟩].map
        (c2Combine [1, 2, 0, 3] (c2Update C2Bounds.Natural domainC1 [1, 2, 0, 3]))) := by
  have h := c4_cospline_duality domainC1 [2] [1, 2, 0, 3]
  refine ⟨h.1, h.2.1 _ ?_⟩
  norm_num [coArgs, c2ArgOf, partIndex, scanDown, domainC1]

/-! ### C9: the bivariate cospline occupancy mask -/

theorem biMask_foldl (n0 n1 : ℤ) (idx : List (ℤ × ℤ)) (m : ℤ × ℤ → Bool) (p : ℤ × ℤ) :
    (idx.foldl (fun mm pr => markBox n0 n1 pr mm) m) p = true ↔
      (m p = true ∨ ∃ pr ∈ idx, boxCond n0 n1 pr p) := by
  induction idx generalizing m with
  | nil => simp
  | cons a t ih =>
    rw [List.foldl_cons, ih]
    unfold markBox
    by_cases hb : boxCond n0 n1 a p
    · simp [hb]
    · simp [hb]

theorem biMask_iff (n0 n1 : ℤ) (idx : List (ℤ × ℤ)) (p : ℤ × ℤ) :
    biMask n0 n1 idx p = true ↔ ∃ pr ∈ idx, boxCond n0 n1 pr p := by
  rw [biMask, biMask_foldl]
  simp

theorem axis0V_congr (n0 : ℕ) (mask : ℤ × ℤ → Bool) (v w : ℤ × ℤ → ℚ)
    (hvw : ∀ p, mask p = true → v p = w p) (j1 : ℤ) :
    axis0V n0 mask v j1 = axis0V n0 mask w j1 := by
  unfold axis0V
  apply List.map_congr_left
  intro j0 hj0
  by_cases hm : mask ((j0 : ℤ), j1) = true
  · rw [if_pos hm, if_pos hm, hvw _ hm]
  · rw [if_neg hm, if_neg hm]

theorem spline0Eval_congr (d0 : Domain) (n0 : ℕ) (mask : ℤ × ℤ → Bool)
    (v w : ℤ × ℤ → ℚ) (hvw : ∀ p, mask p = true → v p = w p)
    (j1 : ℤ) (a0 : C2ArgData) :
    spline0Eval d0 n0 mask v j1 a0 = spline0Eval d0 n0 mask w j1 a0 := by
  unfold spline0Eval
  rw [axis0V_congr n0 mask v w hvw j1]

theorem biStep_congr (d0 d1 : Domain) (n0 : ℕ) (n1 : ℤ) (mask : ℤ × ℤ → Bool)
    (v w : ℤ × ℤ → ℚ) (hvw : ∀ p, mask p = true → v p = w p)
    (st : C2State) (a : C2ArgData × C2ArgData) :
    biStep d0 d1 n0 n1 mask v st a = biStep d0 d1 n0 n1 mask w st a := by
  unfold biStep
  have hf : (fun (vv : List ℚ) (i : ℤ) =>
      vv.set i.toNat (spline0Eval d0 n0 mask v i a.1)) =
      fun (vv : List ℚ) (i : ℤ) => vv.set i.toNat (spline0Eval d0 n0 mask w i a.1) := by
    funext vv i
    rw [spline0Eval_congr d0 n0 mask v w hvw i a.1]
  rw [hf]

theorem biRun_congr (d0 d1 : Domain) (n0 : ℕ) (n1 : ℤ) (mask : ℤ × ℤ → Bool)
    (v w : ℤ × ℤ → ℚ) (hvw : ∀ p, mask p = true → v p = w p)
    (st : C2State) (args : List (C2ArgData × C2ArgData)) :
    biRun d0 d1 n0 n1 mask v st args = biRun d0 d1 n0 n1 mask w st args := by
  induction args generalizing st with
  | nil => rfl
  | cons a t ih =>
    simp only [biRun]
    rw [biStep_congr d0 d1 n0 n1 mask v w hvw st a, ih]

/-- C9: a knot `(j0, j1)` is marked in the occupancy mask iff some stored
trajectory argument with interval indices `(i0, i1)` satisfies
`max(i0-1, 0) <= j0 <= min(i0+2, n0-1)` and
`max(i1-1, 0) <= j1 <= min(i1+2, n1-1)`; and evaluation writes knot
values into the axis-0 splines only at masked positions, so two value
grids that agree on all masked cells produce identical outputs. -/
theorem c9_bicospline_mask (d0 d1 : Domain) (traj : List (ℚ × ℚ))
    (args : List (C2ArgData × C2ArgData)) (hargs : biArgs d0 d1 traj = some args) :
    (∀ p : ℤ × ℤ,
      biMask (d0.u.length : ℤ) (d1.u.length : ℤ) (biIndices args) p = true ↔
        ∃ a ∈ args, boxCond (d0.u.length : ℤ) (d1.u.length : ℤ)
          ((a.1.i : ℤ), (a.2.i : ℤ)) p) ∧
    (∀ v w : ℤ × ℤ → ℚ,
      (∀ p, biMask (d0.u.length : ℤ) (d1.u.length : ℤ) (biIndices args) p = true →
        v p = w p) →
      biApply d0 d1 args v = biApply d0 d1 args w) := by
  refine ⟨fun p => ?_, fun v w hvw => ?_⟩
  · rw [biMask_iff]
    constructor
    · rintro ⟨pr, hpr, hbox⟩
      rw [biIndices] at hpr
      obtain ⟨a, ha, rfl⟩ := List.mem_map.mp hpr
      exact ⟨a, ha, hbox⟩
    · rintro ⟨a, ha, hbox⟩
      exact ⟨_, List.mem_map.mpr ⟨a, ha, rfl⟩, hbox⟩
  · unfold biApply
    exact biRun_congr d0 d1 d0.u.length (d1.u.length : ℤ) _ v w hvw
      (c2NullSpline d1) args

/-- Witness for C9: the one-point trajectory `(1/2, 3/2)` on the grid
`{0,1,2,3} x {0,1,2,3}`; knot `(3, 3)` is unmasked, and changing the
value grid only there does not change the output. -/
theorem c9_bicospline_mask_witness :
    biArgs domain0123 domain0123 [(1/2, 3/2)] = some [(c9Arg0, c9Arg1)] ∧
    (biMask (domain0123.u.length : ℤ) (domain0123.u.length : ℤ)
        (biIndices [(c9Arg0, c9Arg1)]) (3, 3) = true ↔
      ∃ a ∈ [(c9Arg0, c9Arg1)],
        boxCond (domain0123.u.length : ℤ) (domain0123.u.length : ℤ)
          ((a.1.i : ℤ), (a.2.i : ℤ)) (3, 3)) ∧
    biApply domain0123 domain0123 [(c9Arg0, c9Arg1)] c9VGrid =
      biApply domain0123 domain0123 [(c9Arg0, c9Arg1)] (fun _ => 0) := by
  have hargs : biArgs domain0123 domain0123 [(1/2, 3/2)] = some [(c9Arg0, c9Arg1)] := by
    norm_num [biArgs, c2ArgOf, partIndex, scanDown, domain0123, c9Arg0, c9Arg1]
  have h := c9_bicospline_mask domain0123 domain0123 [(1/2, 3/2)]
    [(c9Arg0, c9Arg1)] hargs
  refine ⟨hargs, h.1 (3, 3), h.2 c9VGrid (fun _ => 0) ?_⟩
  intro p hp
  rw [c9VGrid]
  by_cases hp3 : p = (3, 3)
  · exfalso
    subst hp3
    rw [h.1 (3, 3)] at hp
    obtain ⟨a, ha, hbox⟩ := hp
    simp only [List.mem_cons, List.not_mem_nil, or_false] at ha
    subst ha
    revert hbox
    norm_num [boxCond, c9Arg0, c9Arg1, domain0123]
  · rw [if_neg hp3]

end Splider

